import Mathlib

/-!
# Verification of the yuzuping latency tool

Shallow embedding of `src/main.rs`: the probe-output parser
(`output_to_duration`), the sort key for the ranking (`none_is_high`),
the display pipeline, and the per-endpoint batch task.

Bytes are modelled as `Nat` (the relevant values are all ASCII), durations
as `Nat` milliseconds (`Duration::from_millis v` compares exactly as `v`;
the sentinel `Duration::from_secs 1000` is `1000000` ms).  Rust panics
(`expect` / `unwrap`) are modelled as `Except.error`.
-/

instance {ε α : Type} [DecidableEq ε] [DecidableEq α] : DecidableEq (Except ε α) := fun x y =>
  match x, y with
  | Except.ok a, Except.ok b =>
    if h : a = b then isTrue (by rw [h]) else isFalse (by simp [h])
  | Except.error a, Except.error b =>
    if h : a = b then isTrue (by rw [h]) else isFalse (by simp [h])
  | Except.ok _, Except.error _ => isFalse (by simp)
  | Except.error _, Except.ok _ => isFalse (by simp)

namespace Yuzuping

/-- `u8::is_ascii_digit`. -/
def isDigit (b : Nat) : Bool := 48 ≤ b && b ≤ 57

/-- `slice::windows(n)` (for `n ≥ 1`): all contiguous subslices of length `n`,
left to right.  For `n > len` there are no windows. -/
def windows (n : Nat) (l : List Nat) : List (List Nat) :=
  (List.range (l.length + 1 - n)).map (fun i => (l.drop i).take n)

/-- `line.windows(ip.len()).any(|window| window == ip)` — the address filter
of `output_to_duration` (line 128). -/
def containsIp (ip line : List Nat) : Bool :=
  (windows ip.length line).any (fun w => w == ip)

/-- `window.iter().enumerate().rev().find_map(|(i, &b)| (b == b'=').then_some(i))`
(lines 132-136): the index of the last `=` in the window, if any. -/
def findRightmostEq : List Nat → Option Nat
  | [] => none
  | b :: rest =>
    match findRightmostEq rest with
    | some i => some (i + 1)
    | none => if b == 61 then some 0 else none

/-- `Iterator::position`: index of the first element satisfying `p`. -/
def position (p : Nat → Bool) : List Nat → Option Nat
  | [] => none
  | b :: rest => if p b then some 0 else (position p rest).map (fun i => i + 1)

/-- Numeric value of a run of ASCII digit bytes, as `str::parse::<u64>`
computes it (most significant digit first). -/
def digitsVal (ds : List Nat) : Nat := ds.foldl (fun acc b => acc * 10 + (b - 48)) 0

/-- Panic message of the `.expect(..)` at line 137. -/
def msNoEqualsMsg : String := "ms line does not contain equals"

/-- Panic marker for the `.unwrap()` on `position` at line 143. -/
def noNonDigitMsg : String := "position returned none"

/-- Panic marker for the `.unwrap()`s on `from_utf8`/`parse` at lines 145-148. -/
def parseFailMsg : String := "u64 parse failed"

/-- `str::parse::<u64>` on a byte slice already known to be ASCII:
fails on the empty string, on a non-digit, and on overflow. -/
def parseU64 (ds : List Nat) : Except String Nat :=
  if ds.isEmpty then Except.error parseFailMsg
  else if ds.all isDigit then
    if digitsVal ds < 2 ^ 64 then Except.ok (digitsVal ds) else Except.error parseFailMsg
  else Except.error parseFailMsg

/-- Body of the closure at lines 131-149, applied to one 16-byte window that
ends with `"ms"`: locate the rightmost `=`, take the digit run after it,
parse it.  Each Rust panic becomes an `Except.error`. -/
def windowValue (w : List Nat) : Except String Nat :=
  match findRightmostEq w with
  | none => Except.error msNoEqualsMsg
  | some i =>
    match position (fun b => !(isDigit b)) (w.drop (i + 1)) with
    | none => Except.error noNonDigitMsg
    | some e => parseU64 ((w.drop (i + 1)).take e)

/-- `window.ends_with(b"ms")` (line 131). -/
def endsMs (w : List Nat) : Bool := [109, 115].isSuffixOf w

/-- `line.windows(16).find_map(..)` (lines 130-150): the first 16-byte window
ending in `"ms"` determines the line's sample; evaluating it may panic. -/
def lineSample (line : List Nat) : Except String (Option Nat) :=
  match (windows 16 line).find? endsMs with
  | none => Except.ok none
  | some w => (windowValue w).map some

/-- The `filter_map` stage feeding `.min()` (lines 129-152): every kept line
is evaluated (a panic on any of them aborts), lines without a sample are
dropped. -/
def collectSamples : List (List Nat) → Except String (List Nat)
  | [] => Except.ok []
  | line :: rest => do
    let s ← lineSample line
    let others ← collectSamples rest
    pure (match s with | none => others | some v => v :: others)

/-- `Iterator::min` on the collected samples. -/
def listMin : List Nat → Option Nat
  | [] => none
  | x :: xs =>
    match listMin xs with
    | none => some x
    | some m => some (Nat.min x m)

/-- `output_to_duration` after the split into lines: filter by address,
extract one sample per line, take the minimum (lines 125-153). -/
def parseLines (ip : List Nat) (ls : List (List Nat)) : Except String (Option Nat) := do
  let samples ← collectSamples (ls.filter (containsIp ip))
  pure (listMin samples)

/-- `output_to_duration` (lines 124-154).  The result is in milliseconds
(`Duration::from_millis`); `Except.error` marks a panic. -/
def output_to_duration (ip stdout : List Nat) : Except String (Option Nat) :=
  parseLines ip (stdout.splitOn 10)

/-- There is an `"ms"` at byte offset `p` of `l`. -/
def msAt (l : List Nat) (p : Nat) : Prop := l[p]? = some 109 ∧ l[p + 1]? = some 115

instance (l : List Nat) (p : Nat) : Decidable (msAt l p) :=
  inferInstanceAs (Decidable (l[p]? = some 109 ∧ l[p + 1]? = some 115))

/-- Modelled from the spec: the textual pattern `=<digits>ms` (an equals sign,
at least one ASCII digit, immediately followed by the unit `"ms"`) starts at
the head of `l`.  This is the specification-side pattern definition, used only
to state claims and counterexamples; it is not part of the source embedding. -/
def specPatternFrom : List Nat → Bool
  | 61 :: rest =>
    (!(rest.takeWhile isDigit).isEmpty) &&
      ((rest.drop (rest.takeWhile isDigit).length).take 2 == [109, 115])
  | _ => false

/-- Modelled from the spec: some position of `line` starts a `=<digits>ms`
pattern. -/
def hasSpecPattern (line : List Nat) : Bool :=
  (List.range line.length).any (fun i => specPatternFrom (line.drop i))

/-- `none_is_high` (lines 96-98): the ranking sort key.  An absent ping counts
as `Duration::from_secs 1000`, i.e. `1000000` ms. -/
def none_is_high (dur : Option Nat) : Nat := dur.getD 1000000

/-- `Player` (lines 25-30). -/
structure Player where
  nickname : String
  game : String
deriving DecidableEq

/-- `Room` (lines 11-23); `ping` is in milliseconds. -/
structure Room where
  port : Nat
  name : String
  description : Option String
  game_name : String
  address : List Nat
  players : List Player
  ping : Option Nat
deriving DecidableEq

/-- The comparator of the sort at line 78:
`none_is_high(left.ping).cmp(none_is_high(right.ping))`. -/
def roomRel (l r : Room) : Prop := none_is_high l.ping ≤ none_is_high r.ping

instance : DecidableRel roomRel := fun l r =>
  inferInstanceAs (Decidable (none_is_high l.ping ≤ none_is_high r.ping))

/-- `rooms.sort_by(..)` (line 78): a stable sort by the comparator; Rust's
`sort_by` is stable, so any stable sort (here: insertion sort) models it. -/
def sortRooms (rooms : List Room) : List Room := List.insertionSort roomRel rooms

/-- The display loop (lines 80-89): iterate the sorted list in reverse and
print only rooms with a present ping.  Returns the rooms in print order. -/
def displayedRooms (rooms : List Room) : List Room :=
  (sortRooms rooms).reverse.filter (fun room => room.ping.isSome)

/-- Body of the per-endpoint async task (lines 63-73), given the outcome of
`ping(&room.address)`: on success the parse result is stored in `ping` (a
parser panic aborts, modelled as `Except.error`); on spawn failure the room
is untouched and a diagnostic line is emitted to stderr (second component). -/
def probeTask (room : Room) (res : Except String (List Nat)) :
    Except String (Room × List String) :=
  match res with
  | Except.ok output =>
    (output_to_duration room.address output).map (fun p => ({ room with ping := p }, []))
  | Except.error err => Except.ok (room, ["unable to ping: " ++ err])

/-- `join_all` (line 76): all tasks run to completion; a panic in any task
aborts the batch. -/
def sequenceResults : List (Except String (Room × List String)) →
    Except String (List (Room × List String))
  | [] => Except.ok []
  | r :: rest => do
    let x ← r
    let xs ← sequenceResults rest
    pure (x :: xs)

/-- The batch (lines 63-76): one task per room, each fed its own probe
outcome, joined at the end. -/
def runBatch (rooms : List Room) (results : List (Except String (List Nat))) :
    Except String (List (Room × List String)) :=
  sequenceResults (List.zipWith probeTask rooms results)

/-- A spawn-failure message used in concrete instances. -/
def boomMsg : String := "boom"

/-- A room with every identity field fixed, used for concrete instances. -/
def mkRoom (ping : Option Nat) : Room :=
  { port := 0, name := "r", description := none, game_name := "g",
    address := [49], players := [], ping := ping }

/-- The bytes of the address `"1.2.3.4"`. -/
def addr : List Nat := [49, 46, 50, 46, 51, 46, 52]

/-- `"1.2.3.4 aaaaaaaaaams"`: references the target, contains `"ms"` but no
`=<digits>ms` pattern anywhere. -/
def c2out : List Nat :=
  [49, 46, 50, 46, 51, 46, 52, 32, 97, 97, 97, 97, 97, 97, 97, 97, 97, 97, 109, 115]

/-- `"1.2.3.4 t=5ms"` — 13 bytes, shorter than the 16-byte scanning window. -/
def c4shortOut : List Nat := [49, 46, 50, 46, 51, 46, 52, 32, 116, 61, 53, 109, 115]

/-- `"1.2.3.4 time"` — the prefix before `=` of the C4 witness line. -/
def c4pre : List Nat := [49, 46, 50, 46, 51, 46, 52, 32, 116, 105, 109, 101]

/-- `"1.2.3.4 ab t=50ms x=10ms"`: one target line carrying two `=<digits>ms`
samples, the lower one second. -/
def c5out : List Nat :=
  [49, 46, 50, 46, 51, 46, 52, 32, 97, 98, 32, 116, 61, 53, 48, 109, 115,
   32, 120, 61, 49, 48, 109, 115]

/-- `"1.2.3.4 time=50ms\n1.2.3.4 time=10ms"`: two target lines, one sample
each. -/
def c5twoLines : List Nat :=
  [49, 46, 50, 46, 51, 46, 52, 32, 116, 105, 109, 101, 61, 53, 48, 109, 115, 10,
   49, 46, 50, 46, 51, 46, 52, 32, 116, 105, 109, 101, 61, 49, 48, 109, 115]

/-- `"1.2.3.4 xx=23 ms"` — 16 bytes, a space between the digits and `"ms"`. -/
def c6out : List Nat :=
  [49, 46, 50, 46, 51, 46, 52, 32, 120, 120, 61, 50, 51, 32, 109, 115]

/-- `"1.2.3.4 xx"` — the prefix before `=` of `c6out`. -/
def c6pre : List Nat := [49, 46, 50, 46, 51, 46, 52, 32, 120, 120]

/-- `"1.2.3.4 time=2000000ms"`: a parseable sample of 2000000 ms, above the
1000 s absent-sentinel. -/
def c8out : List Nat :=
  [49, 46, 50, 46, 51, 46, 52, 32, 116, 105, 109, 101, 61,
   50, 48, 48, 48, 48, 48, 48, 109, 115]

lemma find?_range'_eq_some (p : Nat → Bool) (k : Nat) (hp : p k = true) :
    ∀ (n s : Nat), s ≤ k → k < s + n → (∀ j, s ≤ j → j < k → p j = false) →
    (List.range' s n).find? p = some k := by
  intro n
  induction n with
  | zero => intro s h1 h2 _; omega
  | succ n ih =>
    intro s h1 h2 hmin
    rw [List.range'_succ]
    by_cases hs : s = k
    · subst hs; exact List.find?_cons_of_pos _ hp
    · rw [List.find?_cons_of_neg _ (by simp [hmin s le_rfl (by omega)])]
      exact ih (s + 1) (by omega) (by omega) (fun j hj1 hj2 => hmin j (by omega) hj2)

lemma window_getElem? (l : List Nat) (i j : Nat) (hj : j < 16) :
    ((l.drop i).take 16)[j]? = l[i + j]? := by
  rw [List.getElem?_take, if_pos hj, List.getElem?_drop]

lemma endsMs_window_of_msAt (l : List Nat) (i : Nat) (hm : msAt l (i + 14)) :
    endsMs ((l.drop i).take 16) = true := by
  obtain ⟨h109, h115⟩ := hm
  unfold endsMs
  rw [List.isSuffixOf_iff_suffix]
  refine ⟨(l.drop i).take 14, ?_⟩
  have h115' : l[i + (14 + 1)]? = some 115 := by
    rw [show i + (14 + 1) = i + 14 + 1 by omega]
    exact h115
  have hstep : (l.drop i).take 16 =
      (l.drop i).take 14 ++ l[i + 14]?.toList ++ l[i + (14 + 1)]?.toList := by
    rw [show (16 : Nat) = 14 + 1 + 1 by omega, List.take_succ, List.take_succ,
      List.getElem?_drop, List.getElem?_drop]
  rw [hstep, h109, h115']
  simp

lemma msAt_of_endsMs_window (l : List Nat) (i : Nat) (hlen : i + 16 ≤ l.length)
    (h : endsMs ((l.drop i).take 16) = true) : msAt l (i + 14) := by
  unfold endsMs at h
  rw [List.isSuffixOf_iff_suffix] at h
  obtain ⟨t, ht⟩ := h
  have hwlen : ((l.drop i).take 16).length = 16 := by
    rw [List.length_take, List.length_drop]; omega
  have htl : t.length = 14 := by
    have := congrArg List.length ht
    simp at this
    omega
  constructor
  · have : ((l.drop i).take 16)[14]? = some 109 := by
      rw [← ht, List.getElem?_append_right (by omega)]
      simp [htl]
    rwa [window_getElem? l i 14 (by omega)] at this
  · have : ((l.drop i).take 16)[15]? = some 115 := by
      rw [← ht, List.getElem?_append_right (by omega)]
      simp [htl]
    have h' := this
    rw [window_getElem? l i 15 (by omega)] at h'
    have : i + 15 = i + 14 + 1 := by omega
    rwa [this] at h'

lemma find?_windows_of_first (l : List Nat) (P : Nat) (h14 : 14 ≤ P) (hm : msAt l P)
    (hfirst : ∀ q, 14 ≤ q → q < P → ¬ msAt l q) :
    (windows 16 l).find? endsMs = some ((l.drop (P - 14)).take 16) := by
  have hPlen : P + 1 < l.length := by
    obtain ⟨h, -⟩ := List.getElem?_eq_some.mp hm.2
    omega
  unfold windows
  rw [List.find?_map, List.range_eq_range']
  rw [find?_range'_eq_some (endsMs ∘ fun i => (l.drop i).take 16) (P - 14) ?pk
      (l.length + 1 - 16) 0 (by omega) (by omega) ?pmin]
  · rfl
  case pk =>
    have : msAt l (P - 14 + 14) := by
      have : P - 14 + 14 = P := by omega
      rw [this]; exact hm
    exact endsMs_window_of_msAt l (P - 14) this
  case pmin =>
    intro j _ hj
    show endsMs ((l.drop j).take 16) = false
    cases h : endsMs ((l.drop j).take 16) with
    | false => rfl
    | true =>
      exfalso
      have hj16 : j + 16 ≤ l.length := by omega
      exact hfirst (j + 14) (by omega) (by omega) (msAt_of_endsMs_window l j hj16 h)

lemma find?_windows_of_noMs (l : List Nat)
    (h : ∀ p, 14 ≤ p → p < l.length → ¬ msAt l p) :
    (windows 16 l).find? endsMs = none := by
  rw [List.find?_eq_none]
  intro w hw
  unfold windows at hw
  rw [List.mem_map] at hw
  obtain ⟨i, hi, rfl⟩ := hw
  rw [List.mem_range] at hi
  intro hc
  have hi16 : i + 16 ≤ l.length := by omega
  have hms := msAt_of_endsMs_window l i hi16 hc
  have hlt : i + 14 < l.length := by
    obtain ⟨hl, -⟩ := List.getElem?_eq_some.mp hms.1
    omega
  exact h (i + 14) (by omega) hlt hms

lemma findRightmostEq_of_not_mem (v : List Nat) (hv : ¬ 61 ∈ v) : findRightmostEq v = none := by
  induction v with
  | nil => rfl
  | cons b rest ih =>
    have hb : (b == 61) = false := by
      have : b ≠ 61 := fun h => hv (h ▸ List.mem_cons_self b rest)
      simp [this]
    unfold findRightmostEq
    rw [ih (fun h => hv (List.mem_cons_of_mem b h)), hb]
    simp

lemma findRightmostEq_append (u v : List Nat) (hv : ¬ 61 ∈ v) :
    findRightmostEq (u ++ 61 :: v) = some u.length := by
  induction u with
  | nil =>
    show findRightmostEq (61 :: v) = some 0
    unfold findRightmostEq
    rw [findRightmostEq_of_not_mem v hv]
    simp
  | cons x u ih =>
    show findRightmostEq (x :: (u ++ 61 :: v)) = some (u.length + 1)
    unfold findRightmostEq
    rw [ih]

lemma position_of_digits_prefix (ds rest : List Nat) (hds : ∀ d ∈ ds, isDigit d = true)
    (hrest : ∀ t ∈ rest.take 1, isDigit t = false) (hne : rest ≠ []) :
    position (fun b => !(isDigit b)) (ds ++ rest) = some ds.length := by
  induction ds with
  | nil =>
    match rest, hne with
    | r :: rs, _ =>
      have hr : isDigit r = false := hrest r (by simp)
      simp [position, hr]
  | cons d ds ih =>
    have hd : isDigit d = true := hds d (List.mem_cons_self d ds)
    have := ih (fun x hx => hds x (List.mem_cons_of_mem d hx))
    simp [position, hd, this]

lemma digitsVal_foldl_lt (ds : List Nat) (hds : ∀ d ∈ ds, isDigit d = true) :
    ∀ acc, ds.foldl (fun a b => a * 10 + (b - 48)) acc < (acc + 1) * 10 ^ ds.length := by
  induction ds with
  | nil => intro acc; simp
  | cons d ds ih =>
    intro acc
    have hd : isDigit d = true := hds d (List.mem_cons_self d ds)
    have hd9 : d - 48 ≤ 9 := by
      unfold isDigit at hd
      simp only [Bool.and_eq_true, decide_eq_true_eq] at hd
      omega
    have step := ih (fun x hx => hds x (List.mem_cons_of_mem d hx)) (acc * 10 + (d - 48))
    have hle : (acc * 10 + (d - 48) + 1) * 10 ^ ds.length ≤ (acc + 1) * 10 ^ (ds.length + 1) := by
      rw [pow_succ]
      calc (acc * 10 + (d - 48) + 1) * 10 ^ ds.length
          ≤ ((acc + 1) * 10) * 10 ^ ds.length := by
            exact Nat.mul_le_mul_right _ (by omega)
        _ = (acc + 1) * (10 ^ ds.length * 10) := by ring
    calc List.foldl (fun a b => a * 10 + (b - 48)) acc (d :: ds)
        = List.foldl (fun a b => a * 10 + (b - 48)) (acc * 10 + (d - 48)) ds := rfl
      _ < (acc * 10 + (d - 48) + 1) * 10 ^ ds.length := step
      _ ≤ (acc + 1) * 10 ^ (ds.length + 1) := hle
      _ = (acc + 1) * 10 ^ (d :: ds).length := by rw [List.length_cons]

lemma digitsVal_lt (ds : List Nat) (hds : ∀ d ∈ ds, isDigit d = true)
    (hlen : ds.length ≤ 13) : digitsVal ds < 2 ^ 64 := by
  have h := digitsVal_foldl_lt ds hds 0
  have h13 : (0 + 1) * 10 ^ ds.length ≤ 10 ^ 13 := by
    simpa using Nat.pow_le_pow_right (by norm_num) hlen
  have : digitsVal ds < 10 ^ 13 := lt_of_lt_of_le h h13
  calc digitsVal ds < 10 ^ 13 := this
    _ < 2 ^ 64 := by norm_num

lemma parseU64_digits (ds : List Nat) (hne : ds ≠ []) (hds : ∀ d ∈ ds, isDigit d = true)
    (hlen : ds.length ≤ 13) : parseU64 ds = Except.ok (digitsVal ds) := by
  unfold parseU64
  rw [if_neg (by simp [List.isEmpty_iff, hne]),
    if_pos (List.all_eq_true.mpr hds),
    if_pos (digitsVal_lt ds hds hlen)]

lemma windowValue_shaped (u ds tail : List Nat)
    (hne : ds ≠ []) (hds : ∀ d ∈ ds, isDigit d = true)
    (h61tail : ¬ 61 ∈ tail) (htail : ∀ t ∈ tail.take 1, isDigit t = false)
    (hlen : ds.length ≤ 13) :
    windowValue (u ++ 61 :: (ds ++ tail ++ [109, 115])) = Except.ok (digitsVal ds) := by
  have h61 : ¬ 61 ∈ (ds ++ tail ++ [109, 115]) := by
    intro h
    rw [List.mem_append, List.mem_append] at h
    rcases h with (h | h) | h
    · exact absurd (hds 61 h) (by decide)
    · exact h61tail h
    · exact absurd h (by decide)
  have hdrop : (u ++ 61 :: (ds ++ tail ++ [109, 115])).drop (u.length + 1) =
      ds ++ tail ++ [109, 115] := by
    have hre : u ++ 61 :: (ds ++ tail ++ [109, 115]) =
        (u ++ [61]) ++ (ds ++ tail ++ [109, 115]) := by simp
    rw [hre]
    refine List.drop_left' ?_
    simp
  have h1 : windowValue (u ++ 61 :: (ds ++ tail ++ [109, 115])) =
      match position (fun b => !(isDigit b))
          ((u ++ 61 :: (ds ++ tail ++ [109, 115])).drop (u.length + 1)) with
      | none => Except.error noNonDigitMsg
      | some e =>
        parseU64 (((u ++ 61 :: (ds ++ tail ++ [109, 115])).drop (u.length + 1)).take e) := by
    unfold windowValue
    rw [findRightmostEq_append u _ h61]
  have hpos : position (fun b => !(isDigit b)) (ds ++ tail ++ [109, 115]) = some ds.length := by
    rw [List.append_assoc]
    refine position_of_digits_prefix ds (tail ++ [109, 115]) hds ?_ (by simp)
    intro t ht
    cases tail with
    | nil =>
      simp at ht
      subst ht
      decide
    | cons x xs =>
      simp at ht
      subst ht
      exact htail t (by simp)
  rw [h1, hdrop, hpos]
  have htake : (ds ++ tail ++ [109, 115]).take ds.length = ds := by
    rw [List.append_assoc]
    exact List.take_left' rfl
  show parseU64 ((ds ++ tail ++ [109, 115]).take ds.length) = Except.ok (digitsVal ds)
  rw [htake]
  exact parseU64_digits ds hne hds hlen

lemma shapedLine_getElem? (a ds tail b : List Nat) (j : Nat) :
    (a ++ 61 :: (ds ++ tail ++ (109 :: 115 :: b)))[a.length + 1 + (ds.length + tail.length) + j]? =
    (109 :: 115 :: b)[j]? := by
  rw [List.getElem?_append_right (by omega),
    show a.length + 1 + (ds.length + tail.length) + j - a.length =
      ds.length + tail.length + j + 1 by omega,
    List.getElem?_cons_succ,
    List.getElem?_append_right
      (by rw [List.length_append]; omega :
        (ds ++ tail).length ≤ ds.length + tail.length + j),
    show ds.length + tail.length + j - (ds ++ tail).length = j by
      rw [List.length_append]; omega]

lemma shapedLine_msAt (a ds tail b : List Nat) :
    msAt (a ++ 61 :: (ds ++ tail ++ (109 :: 115 :: b)))
      (a.length + 1 + (ds.length + tail.length)) := by
  constructor
  · simpa using shapedLine_getElem? a ds tail b 0
  · simpa using shapedLine_getElem? a ds tail b 1

lemma shapedLine_window (a ds tail b : List Nat) (hm : ds.length + tail.length ≤ 13)
    (hpos : 14 ≤ a.length + 1 + (ds.length + tail.length)) :
    ((a ++ 61 :: (ds ++ tail ++ (109 :: 115 :: b))).drop
        (a.length + 1 + (ds.length + tail.length) - 14)).take 16 =
      (a.drop (a.length + 1 + (ds.length + tail.length) - 14)) ++
        61 :: (ds ++ tail ++ [109, 115]) := by
  rw [List.drop_append_of_le_length (by omega)]
  rw [show (16 : Nat) =
      (a.drop (a.length + 1 + (ds.length + tail.length) - 14)).length +
        (ds.length + tail.length + 3) by rw [List.length_drop]; omega]
  rw [List.take_append]
  congr 1
  rw [show ds.length + tail.length + 3 = (ds.length + tail.length + 2) + 1 from rfl]
  rw [List.take_succ_cons]
  congr 1
  rw [show ds.length + tail.length + 2 = (ds ++ tail).length + 2 by
    rw [List.length_append]]
  rw [List.take_append]
  simp

lemma lineSample_shaped (a ds tail b : List Nat)
    (hne : ds ≠ []) (hds : ∀ d ∈ ds, isDigit d = true)
    (h61tail : ¬ 61 ∈ tail) (htail : ∀ t ∈ tail.take 1, isDigit t = false)
    (hm13 : ds.length + tail.length ≤ 13)
    (hpos : 14 ≤ a.length + 1 + (ds.length + tail.length))
    (hfirst : ∀ p, 14 ≤ p → p < a.length + 1 + (ds.length + tail.length) →
      ¬ msAt (a ++ 61 :: (ds ++ tail ++ (109 :: 115 :: b))) p) :
    lineSample (a ++ 61 :: (ds ++ tail ++ (109 :: 115 :: b))) =
      Except.ok (some (digitsVal ds)) := by
  have hfind := find?_windows_of_first _ _ hpos (shapedLine_msAt a ds tail b) hfirst
  have h1 : lineSample (a ++ 61 :: (ds ++ tail ++ (109 :: 115 :: b))) =
      (windowValue (((a ++ 61 :: (ds ++ tail ++ (109 :: 115 :: b))).drop
        (a.length + 1 + (ds.length + tail.length) - 14)).take 16)).map some := by
    unfold lineSample
    rw [hfind]
  rw [h1, shapedLine_window a ds tail b hm13 hpos,
    windowValue_shaped _ ds tail hne hds h61tail htail (by omega)]
  rfl

lemma lineSample_noMs (line : List Nat)
    (h : ∀ p, 14 ≤ p → p < line.length → ¬ msAt line p) :
    lineSample line = Except.ok none := by
  unfold lineSample
  rw [find?_windows_of_noMs line h]

lemma collectSamples_noMs (ls : List (List Nat))
    (h : ∀ l ∈ ls, ∀ p, 14 ≤ p → p < l.length → ¬ msAt l p) :
    collectSamples ls = Except.ok [] := by
  induction ls with
  | nil => rfl
  | cons x xs ih =>
    unfold collectSamples
    rw [lineSample_noMs x (h x (List.mem_cons_self x xs)),
      ih (fun l hl => h l (List.mem_cons_of_mem x hl))]
    rfl

lemma output_to_duration_eq_of_kept (ip stdout : List Nat) (kept : List (List Nat))
    (hkept : (stdout.splitOn 10).filter (containsIp ip) = kept) :
    output_to_duration ip stdout = (collectSamples kept).map listMin := by
  unfold output_to_duration parseLines
  rw [hkept]
  cases collectSamples kept <;> rfl

lemma lineSample_pattern (a ds b : List Nat)
    (hne : ds ≠ []) (hds : ∀ d ∈ ds, isDigit d = true) (hlen : ds.length ≤ 13)
    (hpos : 14 ≤ a.length + 1 + ds.length)
    (hfirst : ∀ p, p < a.length + 1 + ds.length → 14 ≤ p →
      ¬ msAt (a ++ 61 :: (ds ++ 109 :: 115 :: b)) p) :
    lineSample (a ++ 61 :: (ds ++ 109 :: 115 :: b)) = Except.ok (some (digitsVal ds)) := by
  have hl : a ++ 61 :: (ds ++ ([] : List Nat) ++ (109 :: 115 :: b)) =
      a ++ 61 :: (ds ++ 109 :: 115 :: b) := by simp
  have h := lineSample_shaped a ds [] b hne hds (by simp) (by simp)
    (by simpa using hlen) (by simpa using hpos) ?hf
  · rwa [hl] at h
  case hf =>
    intro p h14 hlt
    rw [hl]
    refine hfirst p ?_ h14
    simpa using hlt

lemma lineSample_pattern_gap (a ds b : List Nat)
    (hne : ds ≠ []) (hds : ∀ d ∈ ds, isDigit d = true) (hlen : ds.length ≤ 12)
    (hpos : 14 ≤ a.length + 1 + ds.length + 1)
    (hfirst : ∀ p, p < a.length + 1 + ds.length + 1 → 14 ≤ p →
      ¬ msAt (a ++ 61 :: (ds ++ 32 :: 109 :: 115 :: b)) p) :
    lineSample (a ++ 61 :: (ds ++ 32 :: 109 :: 115 :: b)) =
      Except.ok (some (digitsVal ds)) := by
  have hl : a ++ 61 :: (ds ++ [32] ++ (109 :: 115 :: b)) =
      a ++ 61 :: (ds ++ 32 :: 109 :: 115 :: b) := by simp
  have h := lineSample_shaped a ds [32] b hne hds (by simp) (by decide)
    (by simp; omega) (by simp; omega) ?hf
  · rwa [hl] at h
  case hf =>
    intro p h14 hlt
    rw [hl]
    refine hfirst p ?_ h14
    simp at hlt
    omega

lemma zipWith_getElem? {α β γ : Type} (f : α → β → γ) (as : List α) (bs : List β) (j : Nat) :
    (List.zipWith f as bs)[j]? =
      match as[j]?, bs[j]? with
      | some a, some b => some (f a b)
      | _, _ => none := by
  induction as generalizing bs j with
  | nil => cases bs <;> simp
  | cons a as ih =>
    cases bs with
    | nil => simp
    | cons b bs =>
      cases j with
      | zero => simp
      | succ j => simpa using ih bs j

lemma sequenceResults_of_all_ok (l : List (Except String (Room × List String)))
    (h : ∀ x ∈ l, ∃ y, x = Except.ok y) :
    ∃ outs : List (Room × List String),
      sequenceResults l = Except.ok outs ∧ outs.length = l.length ∧
      ∀ (j : Nat) (y : Room × List String),
        l[j]? = some (Except.ok y) → outs[j]? = some y := by
  induction l with
  | nil =>
    refine ⟨[], rfl, rfl, ?_⟩
    intro j y hj
    simp at hj
  | cons x xs ih =>
    obtain ⟨y, rfl⟩ := h x (List.mem_cons_self x xs)
    obtain ⟨outs, hseq, hlen, hget⟩ := ih (fun z hz => h z (List.mem_cons_of_mem _ hz))
    refine ⟨y :: outs, ?_, by simp [hlen], ?_⟩
    · unfold sequenceResults
      rw [hseq]
      rfl
    · intro j z hj
      cases j with
      | zero =>
        simp at hj ⊢
        exact hj
      | succ j =>
        simp at hj ⊢
        exact hget j z hj

lemma sequenceResults_ok_elem (l : List (Except String (Room × List String)))
    (outs : List (Room × List String)) (h : sequenceResults l = Except.ok outs) :
    ∀ (j : Nat) (y : Room × List String),
      outs[j]? = some y → l[j]? = some (Except.ok y) := by
  induction l generalizing outs with
  | nil =>
    have houts : outs = [] := by
      unfold sequenceResults at h
      injection h with h2
      exact h2.symm
    subst houts
    intro j y hj
    simp at hj
  | cons x xs ih =>
    cases x with
    | error e =>
      exfalso
      unfold sequenceResults at h
      simp [Bind.bind, Except.bind] at h
    | ok y =>
      cases hxs : sequenceResults xs with
      | error e =>
        exfalso
        unfold sequenceResults at h
        rw [hxs] at h
        simp [Bind.bind, Except.bind] at h
      | ok ys =>
        have houts : outs = y :: ys := by
          unfold sequenceResults at h
          rw [hxs] at h
          simp [Bind.bind, Except.bind, pure, Except.pure] at h
          exact h.symm
        subst houts
        intro j z hj
        cases j with
        | zero =>
          simp at hj ⊢
          exact hj
        | succ j =>
          simp at hj ⊢
          exact ih ys hxs j z hj

lemma probeTask_preserves_fields (room : Room) (res : Except String (List Nat))
    (out : Room × List String) (h : probeTask room res = Except.ok out) :
    out.1.port = room.port ∧ out.1.name = room.name ∧
    out.1.description = room.description ∧ out.1.game_name = room.game_name ∧
    out.1.address = room.address ∧ out.1.players = room.players := by
  cases res with
  | error e =>
    simp only [probeTask] at h
    injection h with h2
    rw [← h2]
    exact ⟨rfl, rfl, rfl, rfl, rfl, rfl⟩
  | ok output =>
    simp only [probeTask] at h
    cases hp : output_to_duration room.address output with
    | error e =>
      rw [hp] at h
      simp [Except.map] at h
    | ok p =>
      rw [hp] at h
      simp [Except.map] at h
      rw [← h]
      exact ⟨rfl, rfl, rfl, rfl, rfl, rfl⟩

/-- C1: for every target address and raw probe output, a line that does not
reference the target (does not contain its bytes as a substring) never
contributes a sample: the parse result is exactly the parse of the surviving
lines alone, so a non-target line carrying a lower `=<digits>ms` sample
cannot displace the target lines' value. -/
theorem c1_nontarget_lines_never_contribute (ip stdout : List Nat) :
    output_to_duration ip stdout =
      parseLines ip ((stdout.splitOn 10).filter (containsIp ip)) := by
  unfold output_to_duration parseLines
  rw [List.filter_filter]
  have h : (fun l => containsIp ip l && containsIp ip l) =
      fun l => containsIp ip l := by
    funext l
    exact Bool.and_self _
  rw [h]

/-- C2 (amended): if no line survives the address filter, or no surviving
line even contains an `"ms"` preceded by at least 14 bytes (the only places
the 16-byte window scan can fire), the parse returns absent, with no error.
The original claim — absent on every no-match input — is refuted by
`c2_counterexample`: a surviving line containing a window-aligned `"ms"` but
no `=` makes the code panic. -/
theorem c2_no_candidate_window_absent (ip stdout : List Nat) (hip : ip ≠ [])
    (h : ∀ l ∈ (stdout.splitOn 10).filter (containsIp ip),
      ∀ p, p < l.length → 14 ≤ p → ¬ msAt l p) :
    output_to_duration ip stdout = Except.ok none := by
  rw [output_to_duration_eq_of_kept ip stdout _ rfl,
    collectSamples_noMs _ (fun l hl p h14 hlt => h l hl p hlt h14)]
  rfl

/-- Witness for C2 at the concrete output `"1.2.3.4"` (one surviving line,
too short for any window). -/
theorem c2_witness :
    addr ≠ [] ∧
    (∀ l ∈ (addr.splitOn 10).filter (containsIp addr),
      ∀ p, p < l.length → 14 ≤ p → ¬ msAt l p) ∧
    output_to_duration addr addr = Except.ok none :=
  ⟨by decide, by decide,
    c2_no_candidate_window_absent addr addr (by decide) (by decide)⟩

/-- C2 counterexample: the single line of `c2out` references the target and
contains no `=<digits>ms` pattern anywhere, yet the parse panics (the
`.expect` of line 137) instead of returning absent. -/
theorem c2_counterexample :
    ((c2out.splitOn 10).filter (containsIp addr)).all
      (fun l => !(hasSpecPattern l)) = true ∧
    output_to_duration addr c2out = Except.error msNoEqualsMsg ∧
    output_to_duration addr c2out ≠ Except.ok none := by
  refine ⟨by decide, by decide, by decide⟩

/-- C4 (amended): when exactly one line survives the filter and it carries a
`=<digits>ms` pattern whose `"ms"` is preceded by at least 14 bytes (so a
16-byte window covers it), whose digit run has at most 13 digits, and no
earlier window-aligned `"ms"` occurs on the line, the parse returns the digit
run as milliseconds.  The original "regardless of the line's total length or
where the pattern sits" is refuted by `c4_counterexample`. -/
theorem c4_single_pattern_line (ip stdout a ds b : List Nat) (hip : ip ≠ [])
    (hkept : (stdout.splitOn 10).filter (containsIp ip) =
      [a ++ 61 :: (ds ++ 109 :: 115 :: b)])
    (hne : ds ≠ []) (hds : ∀ d ∈ ds, isDigit d = true) (hlen : ds.length ≤ 13)
    (hpos : 14 ≤ a.length + 1 + ds.length)
    (hfirst : ∀ p, p < a.length + 1 + ds.length → 14 ≤ p →
      ¬ msAt (a ++ 61 :: (ds ++ 109 :: 115 :: b)) p) :
    output_to_duration ip stdout = Except.ok (some (digitsVal ds)) := by
  rw [output_to_duration_eq_of_kept ip stdout _ hkept]
  have hline := lineSample_pattern a ds b hne hds hlen hpos hfirst
  have hcoll : collectSamples [a ++ 61 :: (ds ++ 109 :: 115 :: b)] =
      Except.ok [digitsVal ds] := by
    simp only [collectSamples]
    rw [hline]
    rfl
  rw [hcoll]
  rfl

/-- Witness for C4 at the concrete line `"1.2.3.4 time=5ms"`. -/
theorem c4_witness :
    output_to_duration addr (c4pre ++ 61 :: ([53] ++ 109 :: 115 :: [])) =
      Except.ok (some 5) := by
  have h := c4_single_pattern_line addr (c4pre ++ 61 :: ([53] ++ 109 :: 115 :: []))
    c4pre [53] [] (by decide) (by decide) (by decide) (by decide) (by decide)
    (by decide) (by decide)
  have hv : digitsVal [53] = 5 := by decide
  rw [hv] at h
  exact h

/-- C4 counterexample: `"1.2.3.4 t=5ms"` is a single surviving line carrying
the exact spec pattern, but it is only 13 bytes long, so the fixed 16-byte
window scan finds nothing and the parse returns absent instead of 5 ms. -/
theorem c4_counterexample :
    containsIp addr c4shortOut = true ∧ hasSpecPattern c4shortOut = true ∧
    output_to_duration addr c4shortOut = Except.ok none ∧
    output_to_duration addr c4shortOut ≠ Except.ok (some 5) := by
  refine ⟨by decide, by decide, by decide, by decide⟩

/-- C5 (amended): across lines the minimum is returned — each surviving line
contributes at most one sample, the one of its first window-aligned `"ms"`;
with two surviving pattern lines the parse is the minimum of their two
samples.  The several-samples-on-one-line half of the original claim is
refuted by `c5_counterexample`. -/
theorem c5_min_across_lines (ip stdout a1 ds1 b1 a2 ds2 b2 : List Nat)
    (hip : ip ≠ [])
    (hkept : (stdout.splitOn 10).filter (containsIp ip) =
      [a1 ++ 61 :: (ds1 ++ 109 :: 115 :: b1), a2 ++ 61 :: (ds2 ++ 109 :: 115 :: b2)])
    (hne1 : ds1 ≠ []) (hds1 : ∀ d ∈ ds1, isDigit d = true)
    (hlen1 : ds1.length ≤ 13) (hpos1 : 14 ≤ a1.length + 1 + ds1.length)
    (hfirst1 : ∀ p, p < a1.length + 1 + ds1.length → 14 ≤ p →
      ¬ msAt (a1 ++ 61 :: (ds1 ++ 109 :: 115 :: b1)) p)
    (hne2 : ds2 ≠ []) (hds2 : ∀ d ∈ ds2, isDigit d = true)
    (hlen2 : ds2.length ≤ 13) (hpos2 : 14 ≤ a2.length + 1 + ds2.length)
    (hfirst2 : ∀ p, p < a2.length + 1 + ds2.length → 14 ≤ p →
      ¬ msAt (a2 ++ 61 :: (ds2 ++ 109 :: 115 :: b2)) p) :
    output_to_duration ip stdout =
      Except.ok (some (Nat.min (digitsVal ds1) (digitsVal ds2))) := by
  rw [output_to_duration_eq_of_kept ip stdout _ hkept]
  have h1 := lineSample_pattern a1 ds1 b1 hne1 hds1 hlen1 hpos1 hfirst1
  have h2 := lineSample_pattern a2 ds2 b2 hne2 hds2 hlen2 hpos2 hfirst2
  have hcoll : collectSamples [a1 ++ 61 :: (ds1 ++ 109 :: 115 :: b1),
      a2 ++ 61 :: (ds2 ++ 109 :: 115 :: b2)] =
      Except.ok [digitsVal ds1, digitsVal ds2] := by
    simp only [collectSamples]
    rw [h1, h2]
    rfl
  rw [hcoll]
  rfl

/-- Witness for C5 at `"1.2.3.4 time=50ms\n1.2.3.4 time=10ms"`. -/
theorem c5_witness :
    output_to_duration addr c5twoLines = Except.ok (some 10) := by
  have h := c5_min_across_lines addr c5twoLines c4pre [53, 48] [] c4pre [49, 48] []
    (by decide) (by decide)
    (by decide) (by decide) (by decide) (by decide) (by decide)
    (by decide) (by decide) (by decide) (by decide) (by decide)
  have hv : Nat.min (digitsVal [53, 48]) (digitsVal [49, 48]) = 10 := by decide
  rw [hv] at h
  exact h

/-- C5 counterexample: `c5out` is one target line carrying the two samples
50 and 10; the claim demands their minimum 10, but only the line's first
window is scanned, so the parse returns 50. -/
theorem c5_counterexample :
    containsIp addr c5out = true ∧
    output_to_duration addr c5out = Except.ok (some 50) ∧
    output_to_duration addr c5out ≠ Except.ok (some 10) := by
  refine ⟨by decide, by decide, by decide⟩

/-- C6 (amended): a digit run followed by a non-`"ms"` byte IS still matched
whenever some 16-byte window ends in `"ms"` and the run follows that
window's rightmost `=`: on a surviving line `…=<digits> ms` (space before
the unit) the parse returns the digit run, not absent.  The original claim
is refuted by `c6_counterexample`. -/
theorem c6_gap_before_ms_still_matches (ip stdout a ds b : List Nat) (hip : ip ≠ [])
    (hkept : (stdout.splitOn 10).filter (containsIp ip) =
      [a ++ 61 :: (ds ++ 32 :: 109 :: 115 :: b)])
    (hne : ds ≠ []) (hds : ∀ d ∈ ds, isDigit d = true) (hlen : ds.length ≤ 12)
    (hpos : 14 ≤ a.length + 1 + ds.length + 1)
    (hfirst : ∀ p, p < a.length + 1 + ds.length + 1 → 14 ≤ p →
      ¬ msAt (a ++ 61 :: (ds ++ 32 :: 109 :: 115 :: b)) p) :
    output_to_duration ip stdout = Except.ok (some (digitsVal ds)) := by
  rw [output_to_duration_eq_of_kept ip stdout _ hkept]
  have hline := lineSample_pattern_gap a ds b hne hds hlen hpos hfirst
  have hcoll : collectSamples [a ++ 61 :: (ds ++ 32 :: 109 :: 115 :: b)] =
      Except.ok [digitsVal ds] := by
    simp only [collectSamples]
    rw [hline]
    rfl
  rw [hcoll]
  rfl

/-- Witness for C6 at the concrete line `"1.2.3.4 xx=23 ms"`. -/
theorem c6_witness :
    output_to_duration addr c6out = Except.ok (some 23) := by
  have h := c6_gap_before_ms_still_matches addr c6out c6pre [50, 51] []
    (by decide) (by decide) (by decide) (by decide) (by decide)
    (by decide) (by decide)
  have hv : digitsVal [50, 51] = 23 := by decide
  rw [hv] at h
  exact h

/-- C6 counterexample: on `"1.2.3.4 xx=23 ms"` (a space between the digits
and the unit, no other candidate text) the claim demands absent, but the
parse returns 23 ms. -/
theorem c6_counterexample :
    containsIp addr c6out = true ∧
    output_to_duration addr c6out = Except.ok (some 23) ∧
    output_to_duration addr c6out ≠ Except.ok none := by
  refine ⟨by decide, by decide, by decide⟩

/-- C7 (amended): given endpoints with latencies [50ms, absent, 10ms], the
display (best-last, absent excluded) prints `50ms` first and `10ms` last.
The original printed order `10ms` then `50ms` is refuted by
`c7_counterexample`. -/
theorem c7_display_order (r1 r2 r3 : Room)
    (h1 : r1.ping = some 50) (h2 : r2.ping = none) (h3 : r3.ping = some 10) :
    (displayedRooms [r1, r2, r3]).map Room.ping = [some 50, some 10] := by
  unfold displayedRooms sortRooms
  simp [List.insertionSort, List.orderedInsert, roomRel, none_is_high, h1, h2, h3]

/-- Witness for C7 at three concrete rooms. -/
theorem c7_witness :
    (mkRoom (some 50)).ping = some 50 ∧ (mkRoom none).ping = none ∧
    (mkRoom (some 10)).ping = some 10 ∧
    (displayedRooms [mkRoom (some 50), mkRoom none, mkRoom (some 10)]).map
      Room.ping = [some 50, some 10] :=
  ⟨rfl, rfl, rfl, c7_display_order (mkRoom (some 50)) (mkRoom none)
    (mkRoom (some 10)) rfl rfl rfl⟩

/-- C7 counterexample: with latencies [50ms, absent, 10ms] the printed
sequence is not `10ms` then `50ms`. -/
theorem c7_counterexample :
    (displayedRooms [mkRoom (some 50), mkRoom none, mkRoom (some 10)]).map
      Room.ping ≠ [some 10, some 50] := by
  decide

/-- C8 (amended): a present latency sorts strictly before an absent one
exactly when it is below the absent sentinel of 1000 s: for every pair of
rooms with `l.ping = some v`, `v < 1000000` ms and `r.ping = none`, the
comparator puts `l` strictly before `r`.  Parser-producible values can reach
`10^13 - 1` ms, so the unrestricted claim is refuted by
`c8_counterexample`. -/
theorem c8_present_below_sentinel_sorts_first (l r : Room) (v : Nat)
    (hl : l.ping = some v) (hv : v < 1000000) (hr : r.ping = none) :
    roomRel l r ∧ ¬ roomRel r l := by
  refine ⟨?_, ?_⟩
  · unfold roomRel none_is_high
    rw [hl, hr]
    simp only [Option.getD_some, Option.getD_none]
    omega
  · unfold roomRel none_is_high
    rw [hl, hr]
    simp only [Option.getD_some, Option.getD_none]
    omega

/-- Witness for C8 at 50 ms versus absent. -/
theorem c8_witness :
    (mkRoom (some 50)).ping = some 50 ∧ (50 : Nat) < 1000000 ∧
    (mkRoom none).ping = none ∧
    (roomRel (mkRoom (some 50)) (mkRoom none) ∧
      ¬ roomRel (mkRoom none) (mkRoom (some 50))) :=
  ⟨rfl, by decide, rfl,
    c8_present_below_sentinel_sorts_first (mkRoom (some 50)) (mkRoom none) 50
      rfl (by decide) rfl⟩

/-- C8 counterexample: the parser can produce 2000000 ms (`c8out`), and such
a present latency does not sort strictly before an absent one — the absent
sentinel 1000000 ms compares below it. -/
theorem c8_counterexample :
    output_to_duration addr c8out = Except.ok (some 2000000) ∧
    roomRel (mkRoom none) (mkRoom (some 2000000)) ∧
    ¬ (none_is_high (some 2000000) < none_is_high none) := by
  refine ⟨by decide, by decide, by decide⟩

/-- C9: a probe whose spawn fails leaves its endpoint untouched (the latency
stays absent), emits the diagnostic `unable to ping: <err>` to the error
stream, and — provided no other task hits a parser panic — the batch
completes, every other endpoint's output being determined by its own room
and probe outcome alone. -/
theorem c9_spawn_failure_contained (rooms : List Room)
    (results : List (Except String (List Nat))) (i : Nat) (e : String)
    (hlen : rooms.length = results.length)
    (hi : results[i]? = some (Except.error e))
    (hok : ∀ j : Nat, j ≠ i → ∀ room res, rooms[j]? = some room →
      results[j]? = some res → ∃ out, probeTask room res = Except.ok out) :
    ∃ outs : List (Room × List String),
      runBatch rooms results = Except.ok outs ∧
      (∀ room, rooms[i]? = some room →
        outs[i]? = some (room, ["unable to ping: " ++ e])) ∧
      (∀ (j : Nat) room res out, rooms[j]? = some room →
        results[j]? = some res → probeTask room res = Except.ok out →
        outs[j]? = some out) := by
  have hzip : ∀ (j : Nat) room res, rooms[j]? = some room →
      results[j]? = some res →
      (List.zipWith probeTask rooms results)[j]? = some (probeTask room res) := by
    intro j room res hr hs
    rw [zipWith_getElem?, hr, hs]
  have hall : ∀ x ∈ List.zipWith probeTask rooms results,
      ∃ y, x = Except.ok y := by
    intro x hx
    obtain ⟨j, hj⟩ := List.mem_iff_get?.mp hx
    rw [List.get?_eq_getElem?, zipWith_getElem?] at hj
    cases hr : rooms[j]? with
    | none =>
      rw [hr] at hj
      simp at hj
    | some room =>
      cases hs : results[j]? with
      | none =>
        rw [hr, hs] at hj
        simp at hj
      | some res =>
        rw [hr, hs] at hj
        simp at hj
        rw [← hj]
        by_cases hji : j = i
        · subst hji
          rw [hi] at hs
          injection hs with hs
          subst hs
          exact ⟨(room, ["unable to ping: " ++ e]), rfl⟩
        · exact hok j hji room res hr hs
  obtain ⟨outs, hseq, hlouts, hget⟩ := sequenceResults_of_all_ok _ hall
  refine ⟨outs, ?_, ?_, ?_⟩
  · unfold runBatch
    exact hseq
  · intro room hroom
    refine hget i _ ?_
    rw [hzip i room (Except.error e) hroom hi]
    rfl
  · intro j room res out hroom hres hpt
    refine hget j out ?_
    rw [hzip j room res hroom hres, hpt]

/-- Witness for C9: a one-endpoint batch whose probe fails to spawn. -/
theorem c9_witness : ∃ outs : List (Room × List String),
    runBatch [mkRoom none] [Except.error boomMsg] = Except.ok outs ∧
    outs[0]? = some (mkRoom none, ["unable to ping: " ++ "boom"]) := by
  obtain ⟨outs, hrun, hfail, -⟩ := c9_spawn_failure_contained [mkRoom none]
    [Except.error boomMsg] 0 boomMsg rfl rfl
    (by
      intro j hj room res hroom hres
      exfalso
      cases j with
      | zero => exact hj rfl
      | succ j => simp at hroom)
  exact ⟨outs, hrun, hfail (mkRoom none) rfl⟩

/-- C10: the batch mutates only the `ping` field: whenever the batch
completes, every output room agrees with its input room on port, name,
description, game name, address and player list. -/
theorem c10_only_ping_mutated (rooms : List Room)
    (results : List (Except String (List Nat)))
    (outs : List (Room × List String)) (j : Nat) (room : Room)
    (out : Room × List String)
    (hrun : runBatch rooms results = Except.ok outs)
    (hj : rooms[j]? = some room) (ho : outs[j]? = some out) :
    out.1.port = room.port ∧ out.1.name = room.name ∧
    out.1.description = room.description ∧ out.1.game_name = room.game_name ∧
    out.1.address = room.address ∧ out.1.players = room.players := by
  unfold runBatch at hrun
  have hl := sequenceResults_ok_elem _ _ hrun j out ho
  rw [zipWith_getElem?, hj] at hl
  cases hres : results[j]? with
  | none =>
    rw [hres] at hl
    simp at hl
  | some res =>
    rw [hres] at hl
    simp at hl
    exact probeTask_preserves_fields room res out hl

/-- Witness for C10: one room with an initially present ping, one empty
probe output; only `ping` changes. -/
theorem c10_witness :
    runBatch [mkRoom (some 5)] [Except.ok []] =
      Except.ok [(mkRoom none, [])] ∧
    ((mkRoom none, ([] : List String)).1.port = (mkRoom (some 5)).port ∧
      (mkRoom none, ([] : List String)).1.name = (mkRoom (some 5)).name ∧
      (mkRoom none, ([] : List String)).1.description = (mkRoom (some 5)).description ∧
      (mkRoom none, ([] : List String)).1.game_name = (mkRoom (some 5)).game_name ∧
      (mkRoom none, ([] : List String)).1.address = (mkRoom (some 5)).address ∧
      (mkRoom none, ([] : List String)).1.players = (mkRoom (some 5)).players) :=
  ⟨by decide, c10_only_ping_mutated [mkRoom (some 5)] [Except.ok []]
    [(mkRoom none, [])] 0 (mkRoom (some 5)) (mkRoom none, [])
    (by decide) rfl rfl⟩

end Yuzuping
